import Mathlib

/-!
# Verification of `simplevcf.py`

A shallow embedding of the repository's single source file `src/simplevcf.py`,
a thin layer that walks the records of a VCF file (decoded by the external
pysam library), flattens selected INFO and per-sample FORMAT fields into
one Python dict per record, and assembles the dicts into a dataframe with a
canonical column order.

Modelling decisions:
* Python values moved around by the code are modelled by the inductive `PyVal`
  (None, bool, int, str, tuple, list).  The code only ever inspects a value
  with `isinstance(value, tuple)` and moves it otherwise, so no further
  structure is needed.
* A Python `dict` is modelled as an association list `Dict` with insertion
  semantics matching CPython: inserting an existing key overwrites the value
  in place (keeping its position), inserting a new key appends it.
* pysam's `VariantRecord` is modelled by `VariantRecord`: the seven fixed
  fields, the ordered INFO mapping and the ordered per-sample genotype
  mappings, each genotype carrying its `phased` flag.
* `pd.DataFrame.from_records` derives its column set as the first-seen union
  of the dict keys (`unionKeys`).  The expression
  `list(set(df.columns) - set(columns))` converts a Python `set` to a list;
  CPython's set iteration order is an implementation detail (hash based,
  randomized for strings), so it is modelled by an explicit parameter
  `so : List String → List String` constrained by `ValidSetOrder`: the result
  is some duplicate-free enumeration of the elements, in an unspecified order.
* Missing cells: `from_records` fills absent keys with NaN, the
  `df[col] = pd.NA` loop fills absent columns, and `fillna(np.nan)` maps all
  nulls to NaN — all collapsed to the single null sentinel `PyVal.pnone`
  (`cellValue`).  The polars path fills with `pl.lit(None)`, likewise null
  (`cellValuePolars`).
-/

namespace SimpleVcf

/-- A Python runtime value as moved around by `simplevcf.py`. -/
inductive PyVal where
  | pnone
  | pbool (b : Bool)
  | pint (n : Int)
  | pstr (s : String)
  | ptuple (elems : List PyVal)
  | plist (elems : List PyVal)

/-- A Python `dict` with string keys, as an ordered association list. -/
abbrev Dict := List (String × PyVal)

/-- The keys of a dict, in order. -/
def keys (d : Dict) : List String := d.map Prod.fst

/-- Python `dct[k] = v`: overwrite in place if the key exists, else append. -/
def dinsert (d : Dict) (k : String) (v : PyVal) : Dict :=
  if k ∈ keys d then
    d.map (fun p => if p.1 = k then (k, v) else p)
  else
    d ++ [(k, v)]

/-- Python `dct[k]` / `dct.get(k)`: first (= unique) binding of `k`. -/
def dlookup (d : Dict) (k : String) : Option PyVal :=
  match d with
  | [] => none
  | (k₀, v₀) :: rest => if k₀ = k then some v₀ else dlookup rest k

/-- A per-sample genotype mapping (pysam `VariantRecordSample`): the ordered
FORMAT key/value pairs together with the `phased` flag. -/
structure Genotype where
  fields : List (String × PyVal)
  phased : Bool

/-- A decoded pysam `VariantRecord`: the seven fixed fields, the ordered INFO
mapping and the ordered sample-to-genotype mapping. -/
structure VariantRecord where
  chrom : String
  pos : Int
  id : PyVal
  ref : PyVal
  alts : List PyVal
  qual : PyVal
  filters : List String
  info : List (String × PyVal)
  samples : List (String × Genotype)

/-- `list(value) if isinstance(value, tuple) else value` (src lines 71-74,
84-87).  Also used for the GT branch (line 82): pysam genotypes are always
tuples, so `list(genotype[key])` coincides with tuple-to-list there. -/
def pyListify : PyVal → PyVal
  | .ptuple xs => .plist xs
  | v => v

/-- The f-string `f"{sample}.{field}"` (src lines 82-87). -/
def sampleKey (s field : String) : String := s ++ "." ++ field

/-- The initial dict of the seven fixed fields (src lines 58-66). -/
def fixedDict (r : VariantRecord) : Dict :=
  [("chrom", .pstr r.chrom), ("pos", .pint r.pos), ("id", r.id),
   ("ref", r.ref), ("alts", .plist r.alts), ("qual", r.qual),
   ("filters", .plist (r.filters.map .pstr))]

/-- The INFO loop of `_read_vcf_as_records` (src lines 69-74). -/
def projectInfo (info_fields : List String) (include_unspecified : Bool)
    (d : Dict) (info : List (String × PyVal)) : Dict :=
  info.foldl
    (fun d kv =>
      if kv.1 ∈ info_fields ∨ include_unspecified = true then
        dinsert d kv.1 (pyListify kv.2)
      else d)
    d

/-- The inner genotype loop of `_read_vcf_as_records` (src lines 79-87). -/
def projectGenotype (sample_fields : List String) (include_unspecified : Bool)
    (s : String) (g : Genotype) (d : Dict) : Dict :=
  g.fields.foldl
    (fun d kv =>
      if kv.1 ∈ sample_fields ∨ include_unspecified = true then
        if kv.1 = "GT" then
          dinsert (dinsert d (sampleKey s "GT") (pyListify kv.2))
            (sampleKey s "phased") (.pbool g.phased)
        else
          dinsert d (sampleKey s kv.1) (pyListify kv.2)
      else d)
    d

/-- The sample loop of `_read_vcf_as_records` (src lines 77-87). -/
def projectSamples (sample_fields samples : List String)
    (include_unspecified : Bool) (d : Dict)
    (sampleList : List (String × Genotype)) : Dict :=
  sampleList.foldl
    (fun d sg =>
      if sg.1 ∈ samples ∨ include_unspecified = true then
        projectGenotype sample_fields include_unspecified sg.1 sg.2 d
      else d)
    d

/-- One iteration of the record loop of `_read_vcf_as_records`
(src lines 56-88): the flat dict built for one record. -/
def projectRecord (info_fields sample_fields samples : List String)
    (include_unspecified : Bool) (r : VariantRecord) : Dict :=
  projectSamples sample_fields samples include_unspecified
    (projectInfo info_fields include_unspecified (fixedDict r) r.info)
    r.samples

/-- `_read_vcf_as_records` (src lines 42-90).  The pysam record iterator
(whole file or region fetch) is modelled as the already-decoded record list;
the loop appends one flat dict per record. -/
def read_vcf_as_records (info_fields sample_fields samples : List String)
    (include_unspecified : Bool) (recs : List VariantRecord) : List Dict :=
  recs.map (projectRecord info_fields sample_fields samples include_unspecified)

/-- The seven fixed column names (src line 198 / 261). -/
def fixedColumns : List String :=
  ["chrom", "pos", "id", "ref", "alts", "qual", "filters"]

/-- `[f"{sample}.{field}" for sample in samples for field in ["phased", *sample_fields]]`
(src lines 200-201 / 263-264). -/
def sampleColumns (samples sample_fields : List String) : List String :=
  samples.flatMap (fun s => ("phased" :: sample_fields).map (sampleKey s))

/-- The column set `pd.DataFrame.from_records` derives from a list of dicts:
the union of the keys, in first-seen order. -/
def unionKeys (rows : List Dict) : List String :=
  rows.foldl (fun acc row => acc ++ (keys row).filter (fun k => decide (k ∉ acc))) []

/-- A valid model of CPython set-to-list conversion: the output enumerates
exactly the elements of the input, without duplicates, in an arbitrary
(implementation-defined) order. -/
def ValidSetOrder (so : List String → List String) : Prop :=
  ∀ l : List String, (so l).Nodup ∧ ∀ x, x ∈ so l ↔ x ∈ l

/-- One concrete valid set order: first-seen order. -/
def dedupOrder : List String → List String := fun l => l.dedup

/-- Another concrete valid set order: reversed first-seen order. -/
def revOrder : List String → List String := fun l => l.dedup.reverse

/-- A dataframe: ordered column names plus rows of cells. -/
structure DataFrame where
  columns : List String
  rows : List (List PyVal)

/-- A cell of the final pandas dataframe for source row `row` and column `c`:
`from_records` fills keys absent from `row` with NaN, the
`df[col] = pd.NA` loop fills wholly absent columns, and `fillna(np.nan)`
normalizes every null to NaN — all modelled by the sentinel `PyVal.pnone`. -/
def cellValue (row : Dict) (c : String) : PyVal :=
  (dlookup row c).getD PyVal.pnone

/-- `read_vcf_as_pandas` (src lines 149-209).  `so` models the iteration
order of `set(df.columns) - set(columns)` (line 203); the defaulting of
`info_fields`/`sample_fields`/`samples` from the header schema (lines
184-189) is the caller passing those lists explicitly. -/
def read_vcf_as_pandas (so : List String → List String)
    (info_fields sample_fields samples : List String)
    (include_unspecified : Bool) (recs : List VariantRecord) : DataFrame :=
  let records := read_vcf_as_records info_fields sample_fields samples
    include_unspecified recs
  let dfCols := unionKeys records
  let orderedCols := fixedColumns ++ info_fields ++ sampleColumns samples sample_fields
  let allCols := orderedCols ++ so (dfCols.filter (fun c => decide (c ∉ orderedCols)))
  ⟨allCols, records.map (fun row => allCols.map (cellValue row))⟩

/-- A cell of the final polars dataframe: missing keys and the
`pl.lit(None)` columns (src lines 268-270) are polars nulls, modelled by the
same sentinel `PyVal.pnone`. -/
def cellValuePolars (row : Dict) (c : String) : PyVal :=
  (dlookup row c).getD PyVal.pnone

/-- `read_vcf_as_polars` (src lines 212-272), embedded from its own body:
identical record and column computation, with polars constructors. -/
def read_vcf_as_polars (so : List String → List String)
    (info_fields sample_fields samples : List String)
    (include_unspecified : Bool) (recs : List VariantRecord) : DataFrame :=
  let records := read_vcf_as_records info_fields sample_fields samples
    include_unspecified recs
  let dfCols := unionKeys records
  let orderedCols := fixedColumns ++ info_fields ++ sampleColumns samples sample_fields
  let allCols := orderedCols ++ so (dfCols.filter (fun c => decide (c ∉ orderedCols)))
  ⟨allCols, records.map (fun row => allCols.map (cellValuePolars row))⟩

/-- A header field declaration as exposed by pysam
(`f.header.info.values()` / `f.header.formats.values()`, in declaration
order): name, number, type, description. -/
structure FieldDescriptor where
  name : String
  number : PyVal
  type : String
  description : String

/-- A pysam `VariantFile` header: INFO and FORMAT declarations in header
declaration order, plus the sample names. -/
structure VcfHeader where
  info : List FieldDescriptor
  formats : List FieldDescriptor
  samples : List String

/-- `_read_info_schema` (src lines 22-29): one row per INFO declaration,
columns name/number/type/description. -/
def read_info_schema (h : VcfHeader) : DataFrame :=
  ⟨["name", "number", "type", "description"],
   h.info.map (fun o => [.pstr o.name, o.number, .pstr o.type, .pstr o.description])⟩

/-- `_read_sample_schema` (src lines 32-39): one row per FORMAT declaration,
columns name/number/type/description. -/
def read_sample_schema (h : VcfHeader) : DataFrame :=
  ⟨["name", "number", "type", "description"],
   h.formats.map (fun o => [.pstr o.name, o.number, .pstr o.type, .pstr o.description])⟩

/-- Modelled from the spec: the error taxonomy of §7 as far as record
decoding is concerned.  `MalformedRecordError` carries the offending line
number.  (The repository delegates decoding to pysam, so the decoder itself
is not under `src/`.) -/
inductive VcfError where
  | malformedRecord (lineNo : Nat)
deriving Repr, DecidableEq

/-- Modelled from the spec: the fixed fields of one decoded data line
(§4.2 RecordDecoder).  Only the structure needed by the decoding-error
claims is kept. -/
structure DecodedRecord where
  chrom : String
  pos : Nat
  idField : String
  refField : String
  altField : String
  qualField : String
  filterField : String
  infoField : String
deriving Repr, DecidableEq

/-- Modelled from the spec: splitting a data line at tab characters
(the VCF column separator, §6).  Defined over the character list so that it
evaluates by kernel reduction. -/
def splitTabChars : List Char → List (List Char)
  | [] => [[]]
  | c :: cs =>
    match splitTabChars cs with
    | [] => [[c]]
    | cur :: rest =>
      if c = '\t' then [] :: cur :: rest else (c :: cur) :: rest

/-- Modelled from the spec: parsing the `pos` column as a decimal natural
number; any non-digit character (or empty string) fails. -/
def parseNat? (s : String) : Option Nat :=
  if s.data = [] then none
  else if s.data.all (fun c => c.isDigit) then
    some (s.data.foldl (fun n c => n * 10 + (c.toNat - 48)) 0)
  else none

/-- Modelled from the spec: §4.2 RecordDecoder, success predicate part.
A data line decodes successfully when it splits into at least 8
tab-separated columns and its `pos` column is a positive integer;
otherwise decoding fails. -/
def decodeLineCore (line : String) : Option DecodedRecord :=
  let cols := (splitTabChars line.data).map (fun cs => String.mk cs)
  if cols.length < 8 then none
  else
    match parseNat? (cols.getD 1 "") with
    | none => none
    | some p =>
      if p = 0 then none
      else
        some ⟨cols.getD 0 "", p, cols.getD 2 "", cols.getD 3 "", cols.getD 4 "",
              cols.getD 5 "", cols.getD 6 "", cols.getD 7 ""⟩

/-- Modelled from the spec: `decode(line, header) -> VariantRecord`, failing
with `MalformedRecordError` giving the offending line number (§4.2). -/
def decodeLine (lineNo : Nat) (line : String) : Except VcfError DecodedRecord :=
  match decodeLineCore line with
  | some r => .ok r
  | none => .error (.malformedRecord lineNo)

/-- Modelled from the spec: the record iteration (§4.3/§7), decoding data
lines in order starting at line number `n`; a decoding error aborts the
iteration immediately and propagates, producing no partial record. -/
def decodeLinesFrom : Nat → List String → Except VcfError (List DecodedRecord)
  | _, [] => .ok []
  | n, l :: rest =>
    match decodeLine n l with
    | .error e => .error e
    | .ok r =>
      match decodeLinesFrom (n + 1) rest with
      | .error e => .error e
      | .ok rs => .ok (r :: rs)

/-- Modelled from the spec: decode a whole sequence of data lines, numbered
from 1, aborting on the first malformed line. -/
def decodeLines (lines : List String) : Except VcfError (List DecodedRecord) :=
  decodeLinesFrom 1 lines

/-- A string containing no dot.  Sample and FORMAT field names of a
well-formed VCF satisfy this; it rules out composite-column-name
collisions such as sample `"A"` field `"B.GT"` versus sample `"A.B"`
field `"GT"`. -/
def NoDot (w : String) : Prop := '.' ∉ w.data

instance (w : String) : Decidable (NoDot w) := by
  unfold NoDot; infer_instance

/-- The null test used to state that the sentinel differs from every valid
data value. -/
def PyVal.isNull : PyVal → Bool
  | .pnone => true
  | _ => false

/-- The column order asserted by the spec for the whole table (claim C1,
from the spec's words, for comparison with the code): fixed fields, then
the requested INFO fields, then per sample phased and the requested sample
fields, then the remaining observed columns in first-seen order. -/
def specClaimedColumns (info_fields sample_fields samples : List String)
    (dfCols : List String) : List String :=
  let orderedCols := fixedColumns ++ info_fields ++ sampleColumns samples sample_fields
  orderedCols ++ dfCols.filter (fun c => decide (c ∉ orderedCols))

/-! ## Basic dictionary lemmas -/

theorem keys_append (d₁ d₂ : Dict) : keys (d₁ ++ d₂) = keys d₁ ++ keys d₂ := by
  simp [keys]

theorem dlookup_eq_none_of_not_mem_keys {d : Dict} {x : String}
    (h : x ∉ keys d) : dlookup d x = none := by
  induction d with
  | nil => rfl
  | cons p rest ih =>
    simp only [keys, List.map_cons, List.mem_cons] at h
    push_neg at h
    simp only [dlookup, if_neg (fun hh : p.1 = x => h.1 hh.symm)]
    exact ih (by simpa [keys] using h.2)

theorem mem_keys_of_dlookup_eq_some {d : Dict} {x : String} {v : PyVal}
    (h : dlookup d x = some v) : x ∈ keys d := by
  induction d with
  | nil => simp [dlookup] at h
  | cons p rest ih =>
    simp only [dlookup] at h
    by_cases hp : p.1 = x
    · simp [keys, hp]
    · simp only [if_neg hp] at h
      simp [keys, List.mem_cons]
      right
      simpa [keys] using ih h

theorem isSome_dlookup_of_mem_keys {d : Dict} {x : String}
    (h : x ∈ keys d) : (dlookup d x).isSome := by
  induction d with
  | nil => simp [keys] at h
  | cons p rest ih =>
    simp only [keys, List.map_cons, List.mem_cons] at h
    by_cases hp : p.1 = x
    · simp [dlookup, hp]
    · rcases h with h | h
      · exact absurd h.symm hp
      · simp only [dlookup, if_neg hp]
        exact ih (by simpa [keys] using h)

theorem dlookup_cons (a : String) (b : PyVal) (l : Dict) (x : String) :
    dlookup ((a, b) :: l) x = if a = x then some b else dlookup l x := rfl

theorem dlookup_append_of_none {d₁ : Dict} {x : String} (d₂ : Dict)
    (h : dlookup d₁ x = none) : dlookup (d₁ ++ d₂) x = dlookup d₂ x := by
  induction d₁ with
  | nil => rfl
  | cons p rest ih =>
    rw [List.cons_append]
    rcases p with ⟨a, b⟩
    rw [dlookup_cons] at h ⊢
    by_cases hax : a = x
    · rw [if_pos hax] at h; exact absurd h (by simp)
    · rw [if_neg hax] at h ⊢
      exact ih h

theorem dlookup_append_of_some {d₁ : Dict} {x : String} {w : PyVal} (d₂ : Dict)
    (h : dlookup d₁ x = some w) : dlookup (d₁ ++ d₂) x = some w := by
  induction d₁ with
  | nil => simp [dlookup] at h
  | cons p rest ih =>
    rw [List.cons_append]
    rcases p with ⟨a, b⟩
    rw [dlookup_cons] at h ⊢
    by_cases hax : a = x
    · rwa [if_pos hax] at h ⊢
    · rw [if_neg hax] at h ⊢
      exact ih h

theorem dlookup_mapUpdate (d : Dict) (k : String) (v : PyVal) (x : String) :
    dlookup (d.map (fun p => if p.1 = k then (k, v) else p)) x =
      if x = k then (dlookup d k).map (fun _ => v) else dlookup d x := by
  induction d with
  | nil =>
    simp only [List.map_nil, dlookup]
    split <;> rfl
  | cons p rest ih =>
    rw [List.map_cons]
    by_cases hpk : p.1 = k
    · rw [if_pos hpk]
      by_cases hxk : x = k
      · rw [if_pos hxk, dlookup_cons, if_pos hxk.symm]
        rcases p with ⟨a, b⟩
        rw [dlookup_cons, if_pos hpk]
        rfl
      · rw [if_neg hxk, dlookup_cons, if_neg (fun h : k = x => hxk h.symm)]
        rcases p with ⟨a, b⟩
        rw [dlookup_cons, if_neg (fun h : a = x => hxk (h.symm.trans hpk))]
        rw [ih, if_neg hxk]
    · rw [if_neg hpk]
      rcases p with ⟨a, b⟩
      rw [dlookup_cons]
      by_cases hax : a = x
      · have hxk : ¬x = k := fun h => hpk (hax.trans h)
        rw [if_pos hax, if_neg hxk, dlookup_cons, if_pos hax]
      · rw [if_neg hax, ih, dlookup_cons]
        have hak : ¬a = k := hpk
        by_cases hxk : x = k
        · rw [if_pos hxk, if_pos hxk, if_neg hak]
        · rw [if_neg hxk, if_neg hxk, dlookup_cons, if_neg hax]

theorem dlookup_dinsert (d : Dict) (k : String) (v : PyVal) (x : String) :
    dlookup (dinsert d k v) x = if x = k then some v else dlookup d x := by
  unfold dinsert
  split
  · rename_i hmem
    rw [dlookup_mapUpdate]
    by_cases hxk : x = k
    · rw [if_pos hxk, if_pos hxk]
      obtain ⟨w, hw⟩ := Option.isSome_iff_exists.mp (isSome_dlookup_of_mem_keys hmem)
      rw [hw]
      rfl
    · rw [if_neg hxk, if_neg hxk]
  · rename_i hmem
    by_cases hxk : x = k
    · have hnone : dlookup d x = none :=
        dlookup_eq_none_of_not_mem_keys (by rw [hxk]; exact hmem)
      rw [dlookup_append_of_none _ hnone, if_pos hxk, dlookup_cons, if_pos hxk.symm]
    · rw [if_neg hxk]
      cases hdx : dlookup d x with
      | some w => exact dlookup_append_of_some _ hdx
      | none =>
        rw [dlookup_append_of_none _ hdx, dlookup_cons,
          if_neg (fun h : k = x => hxk h.symm)]
        rfl

theorem mem_keys_dinsert (d : Dict) (k : String) (v : PyVal) (x : String) :
    x ∈ keys (dinsert d k v) ↔ x = k ∨ x ∈ keys d := by
  constructor
  · intro hx
    obtain ⟨w, hw⟩ := Option.isSome_iff_exists.mp (isSome_dlookup_of_mem_keys hx)
    rw [dlookup_dinsert] at hw
    by_cases hxk : x = k
    · exact Or.inl hxk
    · rw [if_neg hxk] at hw
      exact Or.inr (mem_keys_of_dlookup_eq_some hw)
  · intro hx
    have : (dlookup (dinsert d k v) x).isSome := by
      rw [dlookup_dinsert]
      rcases hx with rfl | hx
      · simp
      · by_cases hxk : x = k
        · simp [hxk]
        · rw [if_neg hxk]
          exact isSome_dlookup_of_mem_keys hx
    obtain ⟨w, hw⟩ := Option.isSome_iff_exists.mp this
    exact mem_keys_of_dlookup_eq_some hw

/-! ## Composite column name lemmas

`sampleKey s f = s ++ "." ++ f`.  The fixed column names contain no dot,
so no composite key collides with them; and when sample names contain no
dot, a composite key determines its sample and field. -/

theorem sampleKey_data (s f : String) :
    (sampleKey s f).data = s.data ++ '.' :: f.data := by
  simp [sampleKey, String.data_append]

theorem dot_mem_sampleKey (s f : String) : '.' ∈ (sampleKey s f).data := by
  rw [sampleKey_data]
  simp

theorem sampleKey_ne_of_noDot {w : String} (hw : NoDot w) (s f : String) :
    sampleKey s f ≠ w := by
  intro h
  exact hw (h ▸ dot_mem_sampleKey s f)

theorem noDot_split {a b c d : List Char}
    (ha : '.' ∉ a) (hc : '.' ∉ c) (h : a ++ '.' :: b = c ++ '.' :: d) :
    a = c ∧ b = d := by
  induction a generalizing c with
  | nil =>
    cases c with
    | nil => simpa using h
    | cons y ys =>
      rw [List.nil_append, List.cons_append] at h
      have : ('.' : Char) = y := by injection h
      exact absurd (this ▸ List.mem_cons_self y ys) hc
  | cons x xs ih =>
    cases c with
    | nil =>
      rw [List.nil_append, List.cons_append] at h
      have : x = ('.' : Char) := by injection h
      exact absurd (this ▸ List.mem_cons_self x xs) ha
    | cons y ys =>
      rw [List.cons_append, List.cons_append] at h
      have hxy : x = y := by injection h
      have htl : xs ++ '.' :: b = ys ++ '.' :: d := by injection h
      have := ih (fun hm => ha (List.mem_cons_of_mem x hm))
        (fun hm => hc (List.mem_cons_of_mem y hm)) htl
      exact ⟨by rw [hxy, this.1], this.2⟩

theorem sampleKey_inj {s s' f f' : String} (hs : NoDot s) (hs' : NoDot s')
    (h : sampleKey s f = sampleKey s' f') : s = s' ∧ f = f' := by
  have hdata := congrArg String.data h
  rw [sampleKey_data, sampleKey_data] at hdata
  have := noDot_split hs hs' hdata
  exact ⟨String.ext this.1, String.ext this.2⟩

theorem sampleKey_left_inj {s f f' : String}
    (h : sampleKey s f = sampleKey s' f') (hss' : s = s') : f = f' := by
  subst hss'
  have hdata := congrArg String.data h
  rw [sampleKey_data, sampleKey_data] at hdata
  exact String.ext (by injection List.append_cancel_left hdata)

theorem fixed_noDot : ∀ w ∈ fixedColumns, NoDot w := by decide

/-! ## Key characterization of the projector

Which keys the flat dict of one record contains: exactly the seven fixed
keys, the selected INFO keys present in the record, and the selected
composite sample keys present in the record (with `<s>.phased` accompanying
`<s>.GT`).  The generated keys are described by explicit lists. -/

/-- The bare keys the INFO loop inserts. -/
def infoKeys (info_fields : List String) (inc : Bool)
    (info : List (String × PyVal)) : List String :=
  info.flatMap (fun kv => if kv.1 ∈ info_fields ∨ inc = true then [kv.1] else [])

/-- The composite keys one genotype inserts. -/
def genotypeKeys (sample_fields : List String) (inc : Bool) (s : String)
    (fields : List (String × PyVal)) : List String :=
  fields.flatMap (fun kv =>
    if kv.1 ∈ sample_fields ∨ inc = true then
      if kv.1 = "GT" then [sampleKey s "GT", sampleKey s "phased"]
      else [sampleKey s kv.1]
    else [])

/-- The composite keys the sample loop inserts. -/
def samplesKeys (sample_fields samples : List String) (inc : Bool)
    (sampleList : List (String × Genotype)) : List String :=
  sampleList.flatMap (fun sg =>
    if sg.1 ∈ samples ∨ inc = true then
      genotypeKeys sample_fields inc sg.1 sg.2.fields
    else [])

theorem mem_keys_projectInfo (info_fields : List String) (inc : Bool)
    (d : Dict) (info : List (String × PyVal)) (x : String) :
    x ∈ keys (projectInfo info_fields inc d info) ↔
      x ∈ keys d ∨ x ∈ infoKeys info_fields inc info := by
  induction info generalizing d with
  | nil => simp [projectInfo, infoKeys]
  | cons kv rest ih =>
    have hstep : projectInfo info_fields inc d (kv :: rest) =
        projectInfo info_fields inc
          (if kv.1 ∈ info_fields ∨ inc = true then
            dinsert d kv.1 (pyListify kv.2) else d)
          rest := rfl
    have hkeys : infoKeys info_fields inc (kv :: rest) =
        (if kv.1 ∈ info_fields ∨ inc = true then [kv.1] else []) ++
          infoKeys info_fields inc rest := rfl
    rw [hstep, ih, hkeys]
    by_cases hsel : kv.1 ∈ info_fields ∨ inc = true
    · rw [if_pos hsel, if_pos hsel, mem_keys_dinsert]
      simp only [List.mem_append, List.mem_singleton]
      tauto
    · rw [if_neg hsel, if_neg hsel]
      simp only [List.nil_append]

theorem mem_keys_projectGenotype (sample_fields : List String) (inc : Bool)
    (s : String) (fields : List (String × PyVal)) (ph : Bool)
    (d : Dict) (x : String) :
    x ∈ keys (projectGenotype sample_fields inc s ⟨fields, ph⟩ d) ↔
      x ∈ keys d ∨ x ∈ genotypeKeys sample_fields inc s fields := by
  induction fields generalizing d with
  | nil => simp [projectGenotype, genotypeKeys]
  | cons kv rest ih =>
    have hstep : projectGenotype sample_fields inc s ⟨kv :: rest, ph⟩ d =
        projectGenotype sample_fields inc s ⟨rest, ph⟩
          (if kv.1 ∈ sample_fields ∨ inc = true then
            (if kv.1 = "GT" then
              dinsert (dinsert d (sampleKey s "GT") (pyListify kv.2))
                (sampleKey s "phased") (.pbool ph)
            else dinsert d (sampleKey s kv.1) (pyListify kv.2))
          else d) := rfl
    have hkeys : genotypeKeys sample_fields inc s (kv :: rest) =
        (if kv.1 ∈ sample_fields ∨ inc = true then
          if kv.1 = "GT" then [sampleKey s "GT", sampleKey s "phased"]
          else [sampleKey s kv.1]
        else []) ++ genotypeKeys sample_fields inc s rest := rfl
    rw [hstep, ih, hkeys]
    by_cases hsel : kv.1 ∈ sample_fields ∨ inc = true
    · rw [if_pos hsel, if_pos hsel]
      by_cases hGT : kv.1 = "GT"
      · rw [if_pos hGT, if_pos hGT, mem_keys_dinsert, mem_keys_dinsert]
        simp only [List.mem_append, List.mem_cons, List.mem_singleton,
          List.not_mem_nil]
        tauto
      · rw [if_neg hGT, if_neg hGT, mem_keys_dinsert]
        simp only [List.mem_append, List.mem_singleton]
        tauto
    · rw [if_neg hsel, if_neg hsel]
      simp only [List.nil_append]

theorem mem_keys_projectSamples (sample_fields samples : List String)
    (inc : Bool) (d : Dict) (sampleList : List (String × Genotype)) (x : String) :
    x ∈ keys (projectSamples sample_fields samples inc d sampleList) ↔
      x ∈ keys d ∨ x ∈ samplesKeys sample_fields samples inc sampleList := by
  induction sampleList generalizing d with
  | nil => simp [projectSamples, samplesKeys]
  | cons sg rest ih =>
    have hstep : projectSamples sample_fields samples inc d (sg :: rest) =
        projectSamples sample_fields samples inc
          (if sg.1 ∈ samples ∨ inc = true then
            projectGenotype sample_fields inc sg.1 sg.2 d
          else d) rest := rfl
    have hkeys : samplesKeys sample_fields samples inc (sg :: rest) =
        (if sg.1 ∈ samples ∨ inc = true then
          genotypeKeys sample_fields inc sg.1 sg.2.fields
        else []) ++ samplesKeys sample_fields samples inc rest := rfl
    rw [hstep, ih, hkeys]
    by_cases hsel : sg.1 ∈ samples ∨ inc = true
    · rw [if_pos hsel, if_pos hsel]
      rcases sg with ⟨sname, g⟩
      rcases g with ⟨fields, ph⟩
      rw [mem_keys_projectGenotype]
      simp only [List.mem_append]
      tauto
    · rw [if_neg hsel, if_neg hsel]
      simp only [List.nil_append]

theorem keys_fixedDict (r : VariantRecord) : keys (fixedDict r) = fixedColumns := rfl

theorem mem_keys_projectRecord (info_fields sample_fields samples : List String)
    (inc : Bool) (r : VariantRecord) (x : String) :
    x ∈ keys (projectRecord info_fields sample_fields samples inc r) ↔
      x ∈ fixedColumns ∨
      x ∈ infoKeys info_fields inc r.info ∨
      x ∈ samplesKeys sample_fields samples inc r.samples := by
  rw [projectRecord, mem_keys_projectSamples, mem_keys_projectInfo, keys_fixedDict]
  tauto

/-! ## Lookup lemmas for the projector folds -/

theorem dlookup_projectInfo_preserve (info_fields : List String) (inc : Bool)
    (d : Dict) (info : List (String × PyVal)) (t : String)
    (ht : t ∉ info.map Prod.fst) :
    dlookup (projectInfo info_fields inc d info) t = dlookup d t := by
  induction info generalizing d with
  | nil => rfl
  | cons kv rest ih =>
    simp only [List.map_cons, List.mem_cons] at ht
    push_neg at ht
    have hstep : projectInfo info_fields inc d (kv :: rest) =
        projectInfo info_fields inc
          (if kv.1 ∈ info_fields ∨ inc = true then
            dinsert d kv.1 (pyListify kv.2) else d)
          rest := rfl
    rw [hstep, ih _ ht.2]
    by_cases hsel : kv.1 ∈ info_fields ∨ inc = true
    · rw [if_pos hsel, dlookup_dinsert, if_neg ht.1]
    · rw [if_neg hsel]

theorem dlookup_projectInfo_self (info_fields : List String) (inc : Bool)
    (d : Dict) (info : List (String × PyVal)) (k : String) (v : PyVal)
    (hnd : (info.map Prod.fst).Nodup) (hmem : (k, v) ∈ info)
    (hsel : k ∈ info_fields ∨ inc = true) :
    dlookup (projectInfo info_fields inc d info) k = some (pyListify v) := by
  induction info generalizing d with
  | nil => simp at hmem
  | cons kv rest ih =>
    rw [List.map_cons, List.nodup_cons] at hnd
    have hstep : projectInfo info_fields inc d (kv :: rest) =
        projectInfo info_fields inc
          (if kv.1 ∈ info_fields ∨ inc = true then
            dinsert d kv.1 (pyListify kv.2) else d)
          rest := rfl
    rcases List.mem_cons.mp hmem with hhead | hrest
    · have hk1 : kv.1 = k := by rw [← hhead]
      have hk2 : kv.2 = v := by rw [← hhead]
      have hnotin : k ∉ rest.map Prod.fst := hk1 ▸ hnd.1
      rw [hstep, dlookup_projectInfo_preserve _ _ _ _ _ hnotin,
        if_pos (hk1 ▸ hsel), dlookup_dinsert, if_pos hk1.symm, hk2]
    · have hne : kv.1 ≠ k := by
        intro h
        exact hnd.1 (h ▸ (List.mem_map.mpr ⟨(k, v), hrest, rfl⟩))
      rw [hstep]
      exact ih _ hnd.2 hrest

theorem dlookup_projectGenotype_preserve_of (sample_fields : List String)
    (inc : Bool) (s : String) (fields : List (String × PyVal)) (ph : Bool)
    (d : Dict) (t : String)
    (h1 : ∀ k ∈ fields.map Prod.fst, sampleKey s k ≠ t)
    (h2 : "GT" ∈ fields.map Prod.fst → sampleKey s "phased" ≠ t) :
    dlookup (projectGenotype sample_fields inc s ⟨fields, ph⟩ d) t = dlookup d t := by
  induction fields generalizing d with
  | nil => rfl
  | cons kv rest ih =>
    have hstep : projectGenotype sample_fields inc s ⟨kv :: rest, ph⟩ d =
        projectGenotype sample_fields inc s ⟨rest, ph⟩
          (if kv.1 ∈ sample_fields ∨ inc = true then
            (if kv.1 = "GT" then
              dinsert (dinsert d (sampleKey s "GT") (pyListify kv.2))
                (sampleKey s "phased") (.pbool ph)
            else dinsert d (sampleKey s kv.1) (pyListify kv.2))
          else d) := rfl
    have h1' : ∀ k ∈ rest.map Prod.fst, sampleKey s k ≠ t := by
      intro k hk
      exact h1 k (by simp [hk])
    have h2' : "GT" ∈ rest.map Prod.fst → sampleKey s "phased" ≠ t := by
      intro hk
      exact h2 (by simp [hk])
    rw [hstep, ih _ h1' h2']
    by_cases hsel : kv.1 ∈ sample_fields ∨ inc = true
    · rw [if_pos hsel]
      have hkv : sampleKey s kv.1 ≠ t := h1 kv.1 (by simp)
      by_cases hGT : kv.1 = "GT"
      · rw [if_pos hGT, dlookup_dinsert,
          if_neg (fun h : t = sampleKey s "phased" =>
            h2 (by simp [hGT]) h.symm),
          dlookup_dinsert,
          if_neg (fun h : t = sampleKey s "GT" => hkv (hGT ▸ h.symm))]
      · rw [if_neg hGT, dlookup_dinsert, if_neg (fun h : t = sampleKey s kv.1 => hkv h.symm)]
    · rw [if_neg hsel]

theorem dlookup_projectGenotype_preserve (sample_fields : List String)
    (inc : Bool) (s : String) (g : Genotype) (d : Dict) (t : String)
    (ht : ∀ f : String, sampleKey s f ≠ t) :
    dlookup (projectGenotype sample_fields inc s g d) t = dlookup d t := by
  rcases g with ⟨fields, ph⟩
  exact dlookup_projectGenotype_preserve_of sample_fields inc s fields ph d t
    (fun k _ => ht k) (fun _ => ht "phased")

theorem sampleKey_phased_ne_GT (s : String) :
    sampleKey s "phased" ≠ sampleKey s "GT" := by
  intro h
  have := sampleKey_left_inj h rfl
  simp at this

theorem dlookup_projectGenotype_GT (sample_fields : List String) (inc : Bool)
    (s : String) (fields : List (String × PyVal)) (ph : Bool) (d : Dict) (v : PyVal)
    (hnd : (fields.map Prod.fst).Nodup)
    (hph : ∀ kv ∈ fields, kv.1 ≠ "phased")
    (hmem : ("GT", v) ∈ fields)
    (hsel : "GT" ∈ sample_fields ∨ inc = true) :
    dlookup (projectGenotype sample_fields inc s ⟨fields, ph⟩ d) (sampleKey s "GT")
      = some (pyListify v) ∧
    dlookup (projectGenotype sample_fields inc s ⟨fields, ph⟩ d) (sampleKey s "phased")
      = some (.pbool ph) := by
  induction fields generalizing d with
  | nil => simp at hmem
  | cons kv rest ih =>
    rw [List.map_cons, List.nodup_cons] at hnd
    have hstep : projectGenotype sample_fields inc s ⟨kv :: rest, ph⟩ d =
        projectGenotype sample_fields inc s ⟨rest, ph⟩
          (if kv.1 ∈ sample_fields ∨ inc = true then
            (if kv.1 = "GT" then
              dinsert (dinsert d (sampleKey s "GT") (pyListify kv.2))
                (sampleKey s "phased") (.pbool ph)
            else dinsert d (sampleKey s kv.1) (pyListify kv.2))
          else d) := rfl
    rcases List.mem_cons.mp hmem with hhead | hrest
    · have hk1 : kv.1 = "GT" := by rw [← hhead]
      have hk2 : kv.2 = v := by rw [← hhead]
      have hGTnotin : "GT" ∉ rest.map Prod.fst := hk1 ▸ hnd.1
      have hpres1 : ∀ k ∈ rest.map Prod.fst, sampleKey s k ≠ sampleKey s "GT" := by
        intro k hk h
        exact hGTnotin (sampleKey_left_inj h rfl ▸ hk)
      have hpres2 : ∀ k ∈ rest.map Prod.fst, sampleKey s k ≠ sampleKey s "phased" := by
        intro k hk h
        obtain ⟨kv', hkv', hfst⟩ := List.mem_map.mp hk
        exact hph kv' (by simp [hkv']) (by rw [hfst, sampleKey_left_inj h rfl])
      rw [hstep,
        dlookup_projectGenotype_preserve_of _ _ _ _ _ _ _ hpres1 (fun h => absurd h hGTnotin),
        dlookup_projectGenotype_preserve_of _ _ _ _ _ _ _ hpres2 (fun h => absurd h hGTnotin),
        if_pos (hk1 ▸ hsel), if_pos hk1, hk2]
      constructor
      · rw [dlookup_dinsert, if_neg (fun h : sampleKey s "GT" = sampleKey s "phased" =>
          sampleKey_phased_ne_GT s h.symm), dlookup_dinsert, if_pos rfl]
      · rw [dlookup_dinsert, if_pos rfl]
    · have hne : kv.1 ≠ "GT" := by
        intro h
        exact hnd.1 (h ▸ (List.mem_map.mpr ⟨("GT", v), hrest, rfl⟩))
      rw [hstep]
      exact ih _ hnd.2 (fun kv' hkv' => hph kv' (List.mem_cons_of_mem _ hkv')) hrest

theorem dlookup_projectSamples_preserve (sample_fields samples : List String)
    (inc : Bool) (d : Dict) (sampleList : List (String × Genotype)) (t : String)
    (ht : ∀ sg ∈ sampleList, ∀ f : String, sampleKey sg.1 f ≠ t) :
    dlookup (projectSamples sample_fields samples inc d sampleList) t = dlookup d t := by
  induction sampleList generalizing d with
  | nil => rfl
  | cons sg rest ih =>
    have hstep : projectSamples sample_fields samples inc d (sg :: rest) =
        projectSamples sample_fields samples inc
          (if sg.1 ∈ samples ∨ inc = true then
            projectGenotype sample_fields inc sg.1 sg.2 d
          else d) rest := rfl
    rw [hstep, ih _ (fun sg' hsg' => ht sg' (by simp [hsg']))]
    by_cases hsel : sg.1 ∈ samples ∨ inc = true
    · rw [if_pos hsel, dlookup_projectGenotype_preserve _ _ _ _ _ _ (ht sg (by simp))]
    · rw [if_neg hsel]

theorem dlookup_projectSamples_GT (sample_fields samples : List String)
    (inc : Bool) (d : Dict) (sampleList : List (String × Genotype))
    (s : String) (g : Genotype) (v : PyVal)
    (hnd : (sampleList.map Prod.fst).Nodup)
    (hdots : ∀ sg ∈ sampleList, NoDot sg.1)
    (hmem : (s, g) ∈ sampleList)
    (hgnd : (g.fields.map Prod.fst).Nodup)
    (hph : ∀ kv ∈ g.fields, kv.1 ≠ "phased")
    (hGT : ("GT", v) ∈ g.fields)
    (hssel : s ∈ samples ∨ inc = true)
    (hfsel : "GT" ∈ sample_fields ∨ inc = true) :
    dlookup (projectSamples sample_fields samples inc d sampleList) (sampleKey s "GT")
      = some (pyListify v) ∧
    dlookup (projectSamples sample_fields samples inc d sampleList) (sampleKey s "phased")
      = some (.pbool g.phased) := by
  induction sampleList generalizing d with
  | nil => simp at hmem
  | cons sg rest ih =>
    rw [List.map_cons, List.nodup_cons] at hnd
    have hstep : projectSamples sample_fields samples inc d (sg :: rest) =
        projectSamples sample_fields samples inc
          (if sg.1 ∈ samples ∨ inc = true then
            projectGenotype sample_fields inc sg.1 sg.2 d
          else d) rest := rfl
    rcases List.mem_cons.mp hmem with hhead | hrest
    · have hs1 : sg.1 = s := by rw [← hhead]
      have hs2 : sg.2 = g := by rw [← hhead]
      have hsnotin : s ∉ rest.map Prod.fst := hs1 ▸ hnd.1
      have hsdot : NoDot s := hs1 ▸ hdots sg (by simp)
      have hpres : ∀ tf : String, ∀ sg' ∈ rest, ∀ f : String,
          sampleKey sg'.1 f ≠ sampleKey s tf := by
        intro tf sg' hsg' f h
        have hdot' : NoDot sg'.1 := hdots sg' (by simp [hsg'])
        have := (sampleKey_inj hdot' hsdot h).1
        exact hsnotin (this ▸ (List.mem_map.mpr ⟨sg', hsg', rfl⟩))
      rw [hstep,
        dlookup_projectSamples_preserve _ _ _ _ _ _ (hpres "GT"),
        dlookup_projectSamples_preserve _ _ _ _ _ _ (hpres "phased"),
        if_pos (hs1 ▸ hssel), hs1, hs2]
      rcases g with ⟨gfields, gph⟩
      exact dlookup_projectGenotype_GT sample_fields inc s gfields gph d v
        hgnd hph hGT hfsel
    · rw [hstep]
      exact ih _ hnd.2 (fun sg' hsg' => hdots sg' (List.mem_cons_of_mem _ hsg')) hrest

/-! ## Column assembly lemmas -/

theorem mem_unionKeys_aux (rows : List Dict) (acc : List String) (x : String) :
    x ∈ rows.foldl
        (fun acc row => acc ++ (keys row).filter (fun k => decide (k ∉ acc))) acc ↔
      x ∈ acc ∨ ∃ row ∈ rows, x ∈ keys row := by
  induction rows generalizing acc with
  | nil => simp
  | cons row rest ih =>
    rw [List.foldl_cons, ih]
    simp only [List.mem_append, List.mem_filter, decide_eq_true_eq,
      List.exists_mem_cons_iff]
    by_cases hx : x ∈ acc
    · tauto
    · tauto

theorem mem_unionKeys (rows : List Dict) (x : String) :
    x ∈ unionKeys rows ↔ ∃ row ∈ rows, x ∈ keys row := by
  rw [unionKeys, mem_unionKeys_aux]
  simp

theorem validSetOrder_dedupOrder : ValidSetOrder dedupOrder :=
  fun l => ⟨l.nodup_dedup, fun _ => List.mem_dedup⟩

theorem validSetOrder_revOrder : ValidSetOrder revOrder :=
  fun l => ⟨List.nodup_reverse.mpr l.nodup_dedup,
    fun x => by rw [revOrder, List.mem_reverse, List.mem_dedup]⟩

theorem columns_read_vcf_as_pandas (so : List String → List String)
    (info_fields sample_fields samples : List String) (inc : Bool)
    (recs : List VariantRecord) :
    (read_vcf_as_pandas so info_fields sample_fields samples inc recs).columns =
      (fixedColumns ++ info_fields ++ sampleColumns samples sample_fields) ++
        so ((unionKeys (read_vcf_as_records info_fields sample_fields samples inc recs)).filter
          (fun c => decide (c ∉ fixedColumns ++ info_fields ++ sampleColumns samples sample_fields))) :=
  rfl

theorem mem_columns_read_vcf_as_pandas {so : List String → List String}
    (hso : ValidSetOrder so) (info_fields sample_fields samples : List String)
    (inc : Bool) (recs : List VariantRecord) (c : String) :
    c ∈ (read_vcf_as_pandas so info_fields sample_fields samples inc recs).columns ↔
      c ∈ fixedColumns ++ info_fields ++ sampleColumns samples sample_fields ∨
      c ∈ unionKeys (read_vcf_as_records info_fields sample_fields samples inc recs) := by
  rw [columns_read_vcf_as_pandas, List.mem_append, (hso _).2, List.mem_filter]
  simp only [decide_eq_true_eq]
  tauto

theorem mem_sampleColumns (samples sample_fields : List String) (s f : String)
    (hs : s ∈ samples) (hf : f ∈ "phased" :: sample_fields) :
    sampleKey s f ∈ sampleColumns samples sample_fields :=
  List.mem_flatMap.mpr ⟨s, hs, List.mem_map.mpr ⟨f, hf, rfl⟩⟩

/-! ## Generated-key helper lemmas -/

theorem mem_infoKeys_elim {info_fields : List String} {inc : Bool}
    {info : List (String × PyVal)} {x : String}
    (h : x ∈ infoKeys info_fields inc info) :
    x ∈ info.map Prod.fst ∧ (x ∈ info_fields ∨ inc = true) := by
  obtain ⟨kv, hkv, hx⟩ := List.mem_flatMap.mp h
  by_cases hsel : kv.1 ∈ info_fields ∨ inc = true
  · rw [if_pos hsel, List.mem_singleton] at hx
    subst hx
    exact ⟨List.mem_map.mpr ⟨kv, hkv, rfl⟩, hsel⟩
  · rw [if_neg hsel] at hx
    simp at hx

theorem mem_infoKeys_intro {info_fields : List String} {inc : Bool}
    {info : List (String × PyVal)} {kv : String × PyVal}
    (hkv : kv ∈ info) (hsel : kv.1 ∈ info_fields ∨ inc = true) :
    kv.1 ∈ infoKeys info_fields inc info :=
  List.mem_flatMap.mpr ⟨kv, hkv, by rw [if_pos hsel]; exact List.mem_singleton.mpr rfl⟩

theorem mem_genotypeKeys_elim {sample_fields : List String} {inc : Bool}
    {s : String} {fields : List (String × PyVal)} {x : String}
    (h : x ∈ genotypeKeys sample_fields inc s fields) :
    ∃ kv ∈ fields, (kv.1 ∈ sample_fields ∨ inc = true) ∧
      (x = sampleKey s kv.1 ∨ (kv.1 = "GT" ∧ x = sampleKey s "phased")) := by
  obtain ⟨kv, hkv, hx⟩ := List.mem_flatMap.mp h
  by_cases hsel : kv.1 ∈ sample_fields ∨ inc = true
  · rw [if_pos hsel] at hx
    refine ⟨kv, hkv, hsel, ?_⟩
    by_cases hGT : kv.1 = "GT"
    · rw [if_pos hGT] at hx
      rcases List.mem_cons.mp hx with hx | hx
      · exact Or.inl (hGT ▸ hx)
      · exact Or.inr ⟨hGT, List.mem_singleton.mp hx⟩
    · rw [if_neg hGT, List.mem_singleton] at hx
      exact Or.inl hx
  · rw [if_neg hsel] at hx
    simp at hx

theorem mem_genotypeKeys_intro {sample_fields : List String} {inc : Bool}
    {s : String} {fields : List (String × PyVal)} {kv : String × PyVal}
    (hkv : kv ∈ fields) (hsel : kv.1 ∈ sample_fields ∨ inc = true) :
    sampleKey s kv.1 ∈ genotypeKeys sample_fields inc s fields := by
  refine List.mem_flatMap.mpr ⟨kv, hkv, ?_⟩
  rw [if_pos hsel]
  by_cases hGT : kv.1 = "GT"
  · rw [if_pos hGT, hGT]
    exact List.mem_cons_self _ _
  · rw [if_neg hGT]
    exact List.mem_singleton.mpr rfl

theorem mem_samplesKeys_elim {sample_fields samples : List String} {inc : Bool}
    {sampleList : List (String × Genotype)} {x : String}
    (h : x ∈ samplesKeys sample_fields samples inc sampleList) :
    ∃ sg ∈ sampleList, (sg.1 ∈ samples ∨ inc = true) ∧
      x ∈ genotypeKeys sample_fields inc sg.1 sg.2.fields := by
  obtain ⟨sg, hsg, hx⟩ := List.mem_flatMap.mp h
  by_cases hsel : sg.1 ∈ samples ∨ inc = true
  · rw [if_pos hsel] at hx
    exact ⟨sg, hsg, hsel, hx⟩
  · rw [if_neg hsel] at hx
    simp at hx

theorem mem_samplesKeys_intro {sample_fields samples : List String} {inc : Bool}
    {sampleList : List (String × Genotype)} {sg : String × Genotype} {x : String}
    (hsg : sg ∈ sampleList) (hsel : sg.1 ∈ samples ∨ inc = true)
    (hx : x ∈ genotypeKeys sample_fields inc sg.1 sg.2.fields) :
    x ∈ samplesKeys sample_fields samples inc sampleList :=
  List.mem_flatMap.mpr ⟨sg, hsg, by rw [if_pos hsel]; exact hx⟩

/-! ## Claim theorems -/

/-- The column keys derivable from a record alone, independent of any
request: the fixed names, its INFO keys, and its composite sample keys
(with `<s>.phased` accompanying `<s>.GT`). -/
def recordKeys (r : VariantRecord) : List String :=
  fixedColumns ++ r.info.map Prod.fst ++
    r.samples.flatMap (fun sg => sg.2.fields.flatMap (fun kv =>
      if kv.1 = "GT" then [sampleKey sg.1 "GT", sampleKey sg.1 "phased"]
      else [sampleKey sg.1 kv.1]))

/-- C6: the per-record projection is a pure per-record function: whatever
the request (so in particular for a field named in the request), a field
absent from the record — not a fixed field, not an INFO key of the record,
not a composite sample key of the record — never appears as a key of that
record's flat mapping; absence is reconciled only later during table
assembly. -/
theorem c6_projector_emits_no_absent_key
    (info_fields sample_fields samples : List String) (inc : Bool)
    (r : VariantRecord) (f : String) (habs : f ∉ recordKeys r) :
    f ∉ keys (projectRecord info_fields sample_fields samples inc r) := by
  intro hf
  apply habs
  rw [mem_keys_projectRecord] at hf
  rw [recordKeys]
  simp only [List.append_assoc, List.mem_append]
  rcases hf with hf | hf | hf
  · exact Or.inl hf
  · exact Or.inr (Or.inl (mem_infoKeys_elim hf).1)
  · refine Or.inr (Or.inr ?_)
    obtain ⟨sg, hsg, _, hgen⟩ := mem_samplesKeys_elim hf
    obtain ⟨kv, hkv, _, hform⟩ := mem_genotypeKeys_elim hgen
    refine List.mem_flatMap.mpr ⟨sg, hsg, List.mem_flatMap.mpr ⟨kv, hkv, ?_⟩⟩
    by_cases hGT : kv.1 = "GT"
    · rw [if_pos hGT]
      rcases hform with hform | hform
      · rw [hform, hGT]
        exact List.mem_cons_self _ _
      · rw [hform.2]
        exact List.mem_cons_of_mem _ (List.mem_singleton.mpr rfl)
    · rw [if_neg hGT]
      rcases hform with hform | hform
      · exact hform ▸ List.mem_singleton.mpr rfl
      · exact absurd hform.1 hGT

/-- Concrete record for the C6 witness: INFO has only `AC`, one sample `S1`
with only `DP`. -/
def c6Record : VariantRecord :=
  { chrom := "1", pos := 100, id := PyVal.pnone, ref := PyVal.pstr "A",
    alts := [PyVal.pstr "T"], qual := PyVal.pnone, filters := ["PASS"],
    info := [("AC", PyVal.pint 3)],
    samples := [("S1", ⟨[("DP", PyVal.pint 7)], false⟩)] }

/-- Witness for C6: `DP` is requested as an INFO field but absent from the
record, and it is not a key of the record's flat mapping. -/
theorem c6_witness :
    "DP" ∈ ["DP"] ∧ "DP" ∉ recordKeys c6Record ∧
      "DP" ∉ keys (projectRecord ["DP"] ["DP"] ["S1"] false c6Record) :=
  ⟨by decide, by decide,
    c6_projector_emits_no_absent_key ["DP"] ["DP"] ["S1"] false c6Record "DP"
      (by decide)⟩

/-- C10: if the record's INFO mapping contains one of the seven fixed column
names and that key is selected, the flat mapping's value for that key is the
INFO value (listified if a tuple), overwriting the fixed field's value. -/
theorem c10_info_overwrites_fixed
    (info_fields sample_fields samples : List String) (inc : Bool)
    (r : VariantRecord) (fx : String) (v : PyVal)
    (hfx : fx ∈ fixedColumns)
    (hnd : (r.info.map Prod.fst).Nodup)
    (hmem : (fx, v) ∈ r.info)
    (hsel : fx ∈ info_fields ∨ inc = true) :
    dlookup (projectRecord info_fields sample_fields samples inc r) fx
      = some (pyListify v) := by
  rw [projectRecord]
  have hdot : NoDot fx := fixed_noDot fx hfx
  rw [dlookup_projectSamples_preserve _ _ _ _ _ _
    (fun sg _ f => sampleKey_ne_of_noDot hdot sg.1 f)]
  exact dlookup_projectInfo_self _ _ _ _ _ _ hnd hmem hsel

/-- Concrete record for the C10 witness: INFO declares a key `pos` shadowing
the fixed `pos` column. -/
def c10Record : VariantRecord :=
  { chrom := "1", pos := 5, id := PyVal.pnone, ref := PyVal.pstr "A",
    alts := [PyVal.pstr "T"], qual := PyVal.pnone, filters := [],
    info := [("pos", PyVal.pint 999)], samples := [] }

/-- Witness for C10: the INFO entry `pos=999` overwrites the fixed `pos=5`
in the flat mapping. -/
theorem c10_witness :
    "pos" ∈ fixedColumns ∧
      dlookup (projectRecord ["pos"] [] [] false c10Record) "pos"
        = some (PyVal.pint 999) :=
  ⟨by decide,
    c10_info_overwrites_fixed ["pos"] [] [] false c10Record "pos" (PyVal.pint 999)
      (by decide) (by decide) (List.mem_singleton.mpr rfl) (by decide)⟩

/-- C5: for a selected sample whose genotype contains GT, under a request
selecting GT, the flat mapping holds `"<sample>.GT"` as the list of allele
indices and the companion `"<sample>.phased"` boolean.  The well-formedness
hypotheses (unique dot-free sample names, unique genotype field names, no
FORMAT field literally named `phased`) rule out composite-key collisions
that would overwrite these entries. -/
theorem c5_gt_and_phased_emitted
    (info_fields sample_fields samples : List String) (inc : Bool)
    (r : VariantRecord) (s : String) (g : Genotype) (xs : List PyVal)
    (hnd : (r.samples.map Prod.fst).Nodup)
    (hdots : ∀ sg ∈ r.samples, NoDot sg.1)
    (hmem : (s, g) ∈ r.samples)
    (hgnd : (g.fields.map Prod.fst).Nodup)
    (hph : ∀ kv ∈ g.fields, kv.1 ≠ "phased")
    (hGT : ("GT", PyVal.ptuple xs) ∈ g.fields)
    (hssel : s ∈ samples ∨ inc = true)
    (hfsel : "GT" ∈ sample_fields ∨ inc = true) :
    dlookup (projectRecord info_fields sample_fields samples inc r)
        (sampleKey s "GT") = some (PyVal.plist xs) ∧
    dlookup (projectRecord info_fields sample_fields samples inc r)
        (sampleKey s "phased") = some (PyVal.pbool g.phased) := by
  rw [projectRecord]
  exact dlookup_projectSamples_GT sample_fields samples inc _ r.samples s g
    (PyVal.ptuple xs) hnd hdots hmem hgnd hph hGT hssel hfsel

/-- Concrete genotype and record for the C5 witness. -/
def c5Genotype : Genotype :=
  ⟨[("GT", PyVal.ptuple [PyVal.pint 0, PyVal.pint 1]), ("DP", PyVal.pint 5)], true⟩

/-- Concrete record for the C5 witness. -/
def c5Record : VariantRecord :=
  { chrom := "1", pos := 100, id := PyVal.pnone, ref := PyVal.pstr "A",
    alts := [PyVal.pstr "T"], qual := PyVal.pnone, filters := [],
    info := [], samples := [("S1", c5Genotype)] }

/-- Witness for C5: for sample `S1` with phased genotype `0|1` the flat
mapping holds `S1.GT = [0, 1]` and `S1.phased = true`. -/
theorem c5_witness :
    dlookup (projectRecord [] ["GT", "DP"] ["S1"] false c5Record)
        (sampleKey "S1" "GT") = some (PyVal.plist [PyVal.pint 0, PyVal.pint 1]) ∧
    dlookup (projectRecord [] ["GT", "DP"] ["S1"] false c5Record)
        (sampleKey "S1" "phased") = some (PyVal.pbool true) :=
  c5_gt_and_phased_emitted [] ["GT", "DP"] ["S1"] false c5Record "S1" c5Genotype
    [PyVal.pint 0, PyVal.pint 1]
    (by decide) (by decide) (List.mem_singleton.mpr rfl) (by decide)
    (by decide) (List.mem_cons_self _ _) (by decide) (by decide)

/-- C4: a cell of the output table whose column is not a key of that row's
flat mapping holds the null sentinel, which differs from every non-null
value (in particular from a zero or the empty string), and every row of the
assembled table materializes every column (no key is omitted). -/
theorem c4_missing_cell_is_null (so : List String → List String)
    (info_fields sample_fields samples : List String) (inc : Bool)
    (recs : List VariantRecord) (row : Dict) (c : String)
    (_hrow : row ∈ read_vcf_as_records info_fields sample_fields samples inc recs)
    (hmiss : dlookup row c = none) :
    cellValue row c = PyVal.pnone ∧
    (∀ v : PyVal, PyVal.isNull v = false → cellValue row c ≠ v) ∧
    (read_vcf_as_pandas so info_fields sample_fields samples inc recs).rows =
      (read_vcf_as_records info_fields sample_fields samples inc recs).map
        (fun row₂ =>
          (read_vcf_as_pandas so info_fields sample_fields samples inc recs).columns.map
            (cellValue row₂)) := by
  have h1 : cellValue row c = PyVal.pnone := by rw [cellValue, hmiss]; rfl
  refine ⟨h1, ?_, rfl⟩
  intro v hv hcontra
  rw [h1] at hcontra
  cases v
  · simp [PyVal.isNull] at hv
  all_goals exact PyVal.noConfusion hcontra

/-- Witness for C4: in a one-record table, column `DP` is absent from the
record's mapping and its cell is the null sentinel. -/
theorem c4_witness :
    dlookup (projectRecord ["DP"] [] [] false c6Record) "DP" = none ∧
      cellValue (projectRecord ["DP"] [] [] false c6Record) "DP" = PyVal.pnone :=
  ⟨rfl,
    (c4_missing_cell_is_null dedupOrder ["DP"] [] [] false [c6Record]
      (projectRecord ["DP"] [] [] false c6Record) "DP"
      (List.mem_singleton.mpr rfl) rfl).1⟩

/-- C7: `read_info_schema` returns a table with exactly the columns
name/number/type/description whose rows are the INFO declarations in header
declaration order, and `read_sample_schema` the same shape for the FORMAT
declarations. -/
theorem c7_schema_tables (h : VcfHeader) :
    (read_info_schema h).columns = ["name", "number", "type", "description"] ∧
    (read_info_schema h).rows = h.info.map
      (fun o => [PyVal.pstr o.name, o.number, PyVal.pstr o.type,
        PyVal.pstr o.description]) ∧
    (read_sample_schema h).columns = ["name", "number", "type", "description"] ∧
    (read_sample_schema h).rows = h.formats.map
      (fun o => [PyVal.pstr o.name, o.number, PyVal.pstr o.type,
        PyVal.pstr o.description]) :=
  ⟨rfl, rfl, rfl, rfl⟩

/-- C9: for identical arguments, `read_vcf_as_pandas` and
`read_vcf_as_polars` produce the same columns in the same order and the
same cells, with the two backends' null fillers both mapped to the embedded
null sentinel. -/
theorem c9_pandas_polars_agree (so : List String → List String)
    (info_fields sample_fields samples : List String) (inc : Bool)
    (recs : List VariantRecord) :
    (read_vcf_as_pandas so info_fields sample_fields samples inc recs).columns =
      (read_vcf_as_polars so info_fields sample_fields samples inc recs).columns ∧
    (read_vcf_as_pandas so info_fields sample_fields samples inc recs).rows =
      (read_vcf_as_polars so info_fields sample_fields samples inc recs).rows :=
  ⟨rfl, rfl⟩

/-- C2: with `include_unspecified = true`, every INFO key and every
per-sample FORMAT key observed in any input record appears as a column of
the final table (INFO keys bare, FORMAT keys as `"<sample>.<field>"`): the
union step loses no observed key. -/
theorem c2_union_keeps_observed_keys {so : List String → List String}
    (hso : ValidSetOrder so) (info_fields sample_fields samples : List String)
    (recs : List VariantRecord) (r : VariantRecord) (hr : r ∈ recs) :
    (∀ kv ∈ r.info, kv.1 ∈
      (read_vcf_as_pandas so info_fields sample_fields samples true recs).columns) ∧
    (∀ sg ∈ r.samples, ∀ kv ∈ sg.2.fields, sampleKey sg.1 kv.1 ∈
      (read_vcf_as_pandas so info_fields sample_fields samples true recs).columns) := by
  have key_in : ∀ x : String,
      x ∈ keys (projectRecord info_fields sample_fields samples true r) →
      x ∈ (read_vcf_as_pandas so info_fields sample_fields samples true recs).columns := by
    intro x hx
    rw [mem_columns_read_vcf_as_pandas hso]
    refine Or.inr ((mem_unionKeys _ _).mpr ?_)
    exact ⟨projectRecord info_fields sample_fields samples true r,
      List.mem_map.mpr ⟨r, hr, rfl⟩, hx⟩
  refine ⟨fun kv hkv => key_in _ ?_, fun sg hsg kv hkv => key_in _ ?_⟩
  · rw [mem_keys_projectRecord]
    exact Or.inr (Or.inl (mem_infoKeys_intro hkv (Or.inr rfl)))
  · rw [mem_keys_projectRecord]
    exact Or.inr (Or.inr (mem_samplesKeys_intro hsg (Or.inr rfl)
      (mem_genotypeKeys_intro hkv (Or.inr rfl))))

/-- Concrete record for the C2 witness: INFO key `XQ` and FORMAT key `QQ`
are observed but requested nowhere. -/
def c2Record : VariantRecord :=
  { chrom := "1", pos := 100, id := PyVal.pnone, ref := PyVal.pstr "A",
    alts := [PyVal.pstr "T"], qual := PyVal.pnone, filters := [],
    info := [("XQ", PyVal.pint 1)],
    samples := [("S1", ⟨[("QQ", PyVal.pint 2)], false⟩)] }

/-- Witness for C2: with an empty request and `include_unspecified = true`,
the observed keys `XQ` and `S1.QQ` are columns of the final table. -/
theorem c2_witness :
    "XQ" ∈ (read_vcf_as_pandas dedupOrder [] [] [] true [c2Record]).columns ∧
    sampleKey "S1" "QQ" ∈
      (read_vcf_as_pandas dedupOrder [] [] [] true [c2Record]).columns :=
  ⟨(c2_union_keeps_observed_keys validSetOrder_dedupOrder [] [] [] [c2Record]
      c2Record (List.mem_singleton.mpr rfl)).1
      ("XQ", PyVal.pint 1) (List.mem_singleton.mpr rfl),
   (c2_union_keeps_observed_keys validSetOrder_dedupOrder [] [] [] [c2Record]
      c2Record (List.mem_singleton.mpr rfl)).2
      ("S1", ⟨[("QQ", PyVal.pint 2)], false⟩) (List.mem_singleton.mpr rfl)
      ("QQ", PyVal.pint 2) (List.mem_singleton.mpr rfl)⟩

/-- C3: with `include_unspecified = false`, a field name outside the
requested `info_fields` never appears as a column, whatever the input
records.  The name is additionally assumed not to be one of the seven fixed
column names and not of the per-sample composite column form
`"<sample>.<field>"` generated by the request, since those columns exist
independently of `info_fields`. -/
theorem c3_unrequested_never_a_column {so : List String → List String}
    (hso : ValidSetOrder so) (info_fields sample_fields samples : List String)
    (recs : List VariantRecord) (name : String)
    (hinfo : name ∉ info_fields)
    (hfixed : name ∉ fixedColumns)
    (hsample : name ∉ sampleColumns samples sample_fields) :
    name ∉ (read_vcf_as_pandas so info_fields sample_fields samples false recs).columns := by
  rw [mem_columns_read_vcf_as_pandas hso]
  intro h
  rcases h with h | h
  · rcases List.mem_append.mp h with h | h
    · rcases List.mem_append.mp h with h | h
      · exact hfixed h
      · exact hinfo h
    · exact hsample h
  · rw [mem_unionKeys] at h
    obtain ⟨row, hrow, hkey⟩ := h
    simp only [read_vcf_as_records] at hrow
    obtain ⟨r, _, hrr⟩ := List.mem_map.mp hrow
    rw [← hrr, mem_keys_projectRecord] at hkey
    rcases hkey with hk | hk | hk
    · exact hfixed hk
    · rcases (mem_infoKeys_elim hk).2 with h2 | h2
      · exact hinfo h2
      · simp at h2
    · obtain ⟨sg, _, hsel, hgen⟩ := mem_samplesKeys_elim hk
      rcases hsel with hsel | hsel
      · obtain ⟨kv, _, hfsel, hform⟩ := mem_genotypeKeys_elim hgen
        rcases hfsel with hfsel | hfsel
        · rcases hform with hform | hform
          · exact hsample (hform ▸ mem_sampleColumns _ _ _ _ hsel
              (List.mem_cons_of_mem _ hfsel))
          · exact hsample (hform.2 ▸ mem_sampleColumns _ _ _ _ hsel
              (List.mem_cons_self _ _))
        · simp at hfsel
      · simp at hsel

/-- Witness for C3: record `c2Record` carries the INFO key `XQ`, the request
selects only `AC` with `include_unspecified = false`, and `XQ` is not a
column of the output. -/
theorem c3_witness :
    "XQ" ∈ c2Record.info.map Prod.fst ∧ "XQ" ∉ ["AC"] ∧
      "XQ" ∉ (read_vcf_as_pandas dedupOrder ["AC"] ["DP"] ["S1"] false
        [c2Record]).columns :=
  ⟨by decide, by decide,
    c3_unrequested_never_a_column validSetOrder_dedupOrder ["AC"] ["DP"] ["S1"]
      [c2Record] "XQ" (by decide) (by decide) (by decide)⟩

/-- The record iteration fails on the first malformed line with its line
number (lines numbered from `n`). -/
theorem decodeLinesFrom_error (n : Nat) (pre : List String) (bad : String)
    (rest : List String)
    (hpre : ∀ l ∈ pre, (decodeLineCore l).isSome = true)
    (hbad : decodeLineCore bad = none) :
    decodeLinesFrom n (pre ++ bad :: rest)
      = .error (.malformedRecord (n + pre.length)) := by
  induction pre generalizing n with
  | nil =>
    rw [List.nil_append]
    show decodeLinesFrom n (bad :: rest) = _
    simp only [decodeLinesFrom, decodeLine, hbad, List.length_nil, Nat.add_zero]
  | cons p ps ih =>
    rw [List.cons_append]
    have hp := hpre p (List.mem_cons_self _ _)
    obtain ⟨r, hr⟩ := Option.isSome_iff_exists.mp hp
    simp only [decodeLinesFrom, decodeLine, hr]
    rw [ih (n + 1) (fun l hl => hpre l (List.mem_cons_of_mem _ hl))]
    have harith : n + 1 + ps.length = n + (p :: ps).length := by
      simp [List.length_cons]
      omega
    rw [harith]

/-- C8: an input whose data lines contain a malformed line (after a prefix
of well-formed lines) makes decoding fail with `MalformedRecordError`
carrying the offending 1-based line number; the error propagates and no
record list — in particular no partial or recovered record — is produced. -/
theorem c8_malformed_line_aborts (pre : List String) (bad : String)
    (rest : List String)
    (hpre : ∀ l ∈ pre, (decodeLineCore l).isSome = true)
    (hbad : decodeLineCore bad = none) :
    decodeLines (pre ++ bad :: rest)
      = .error (.malformedRecord (pre.length + 1)) ∧
    ∀ rs : List DecodedRecord, decodeLines (pre ++ bad :: rest) ≠ .ok rs := by
  have h := decodeLinesFrom_error 1 pre bad rest hpre hbad
  have h2 : decodeLines (pre ++ bad :: rest)
      = .error (.malformedRecord (pre.length + 1)) := by
    rw [decodeLines, h, Nat.add_comm 1 pre.length]
  refine ⟨h2, fun rs hcontra => ?_⟩
  rw [h2] at hcontra
  exact Except.noConfusion hcontra

/-- Witness for C8: a well-formed first line followed by a line with only 5
tab-separated columns fails with line number 2 and yields no record list. -/
theorem c8_witness :
    ((["1\t100\trs1\tA\tT\t50\tPASS\tDP=3"].all
      (fun l => (decodeLineCore l).isSome)) = true) ∧
    decodeLineCore "1\t101\tA\tT\tPASS" = none ∧
    decodeLines ["1\t100\trs1\tA\tT\t50\tPASS\tDP=3", "1\t101\tA\tT\tPASS"]
      = .error (.malformedRecord 2) :=
  ⟨by decide, by decide,
    (c8_malformed_line_aborts ["1\t100\trs1\tA\tT\t50\tPASS\tDP=3"]
      "1\t101\tA\tT\tPASS" []
      (by intro l hl; rw [List.mem_singleton] at hl; rw [hl]; decide)
      (by decide)).1⟩

/-- Concrete record used to refute C1: two INFO keys `XX`, `YY` observed
outside the requested sets. -/
def c1Record : VariantRecord :=
  { chrom := "1", pos := 100, id := PyVal.pnone, ref := PyVal.pstr "A",
    alts := [PyVal.pstr "T"], qual := PyVal.pnone, filters := [],
    info := [("XX", PyVal.pint 1), ("YY", PyVal.pint 2)], samples := [] }

/-- Counterexample to C1 as stated: the trailing unspecified columns are
produced by `list(set(df.columns) - set(columns))`, whose order is the
CPython set iteration order, not first-seen order.  `revOrder` is a valid
set-to-list order (duplicate-free, same elements) under which the resulting
column order differs from the first-seen order the claim asserts, on a
concrete one-record input. -/
theorem c1_counterexample :
    ValidSetOrder revOrder ∧
    (read_vcf_as_pandas revOrder [] [] [] true [c1Record]).columns ≠
      specClaimedColumns [] [] []
        (unionKeys (read_vcf_as_records [] [] [] true [c1Record])) :=
  ⟨validSetOrder_revOrder, by decide⟩

/-- C1 (amended): for every valid set-to-list order, the column order of
`read_vcf_as_pandas` is the deterministic prefix — the seven fixed fields,
then the requested INFO fields in request order, then for each requested
sample in order its phased column followed by each requested sample field —
followed by the remaining observed columns; the remaining columns are
exactly the observed keys outside the prefix, but their relative order is
the unspecified Python set iteration order (not necessarily first-seen
order).  The column set (though not necessarily its trailing order) is
invariant under reordering of the input records. -/
theorem c1_column_order_amended (so : List String → List String)
    (hso : ValidSetOrder so)
    (info_fields sample_fields samples : List String) (inc : Bool)
    (recs : List VariantRecord) :
    ((read_vcf_as_pandas so info_fields sample_fields samples inc recs).columns).take
        (fixedColumns ++ info_fields ++ sampleColumns samples sample_fields).length
      = fixedColumns ++ info_fields ++ sampleColumns samples sample_fields ∧
    (∀ c : String,
      c ∈ (read_vcf_as_pandas so info_fields sample_fields samples inc recs).columns ↔
        (c ∈ fixedColumns ++ info_fields ++ sampleColumns samples sample_fields ∨
         c ∈ unionKeys (read_vcf_as_records info_fields sample_fields samples inc recs))) ∧
    (∀ recs₂ : List VariantRecord, recs₂.Perm recs → ∀ c : String,
      (c ∈ (read_vcf_as_pandas so info_fields sample_fields samples inc recs₂).columns ↔
       c ∈ (read_vcf_as_pandas so info_fields sample_fields samples inc recs).columns)) := by
  refine ⟨?_, fun c => mem_columns_read_vcf_as_pandas hso _ _ _ _ _ _, ?_⟩
  · rw [columns_read_vcf_as_pandas]
    exact List.take_left _ _
  · intro recs₂ hperm c
    rw [mem_columns_read_vcf_as_pandas hso, mem_columns_read_vcf_as_pandas hso]
    refine or_congr Iff.rfl ?_
    rw [mem_unionKeys, mem_unionKeys]
    constructor
    · rintro ⟨row, hrow, hx⟩
      simp only [read_vcf_as_records] at hrow ⊢
      obtain ⟨r, hr, hrr⟩ := List.mem_map.mp hrow
      subst hrr
      exact ⟨_, List.mem_map.mpr ⟨r, hperm.mem_iff.mp hr, rfl⟩, hx⟩
    · rintro ⟨row, hrow, hx⟩
      simp only [read_vcf_as_records] at hrow ⊢
      obtain ⟨r, hr, hrr⟩ := List.mem_map.mp hrow
      subst hrr
      exact ⟨_, List.mem_map.mpr ⟨r, hperm.symm.mem_iff.mp hr, rfl⟩, hx⟩

/-- Witness for the amended C1: the deterministic prefix of the columns on
a concrete input with a non-trivial request. -/
theorem c1_column_order_witness :
    ((read_vcf_as_pandas dedupOrder ["AC"] ["DP"] ["S1"] true [c1Record]).columns).take
        (fixedColumns ++ ["AC"] ++ sampleColumns ["S1"] ["DP"]).length
      = fixedColumns ++ ["AC"] ++ sampleColumns ["S1"] ["DP"] :=
  (c1_column_order_amended dedupOrder validSetOrder_dedupOrder
    ["AC"] ["DP"] ["S1"] true [c1Record]).1

end SimpleVcf

